import Mathlib

/-
  Verification development for the `learn_ltl_ga` repository.

  The enumerative-synthesis core (`src/learn.rs`) is embedded shallowly:
  `SkeletonTree`, `gen_skeleton_trees`, `SkeletonTree::gen_formulae`, the
  eight filter predicates `check_*`, and the search drivers `brute_solve` /
  `par_brute_solve`.

  The repository's `syntax.rs` and `trace.rs` (the `SyntaxTree` type with its
  derived structural order, the evaluator and `Sample::is_consistent`) are not
  part of the provided sources; those definitions are modelled from the spec
  (sections 3 and 4.1) and are marked `Modelled from the spec:` below.
-/

namespace LearnLtl

/-- Modelled from the spec: zeroary operators of the LTL AST (`syntax.rs` is
not among the provided sources; `learn.rs` uses `ZeroaryOp::AtomicProp` and
`ZeroaryOp::False`). `falseOp` stands for `ZeroaryOp::False`. -/
inductive ZeroaryOp where
  | atomicProp (v : Nat)
  | falseOp
deriving DecidableEq

/-- Modelled from the spec: unary operators (`UnaryOp` of `syntax.rs`). -/
inductive UnaryOp where
  | notOp
  | nextOp
  | globallyOp
  | finallyOp
deriving DecidableEq

/-- Modelled from the spec: binary operators (`BinaryOp` of `syntax.rs`). -/
inductive BinaryOp where
  | andOp
  | orOp
  | impliesOp
  | untilOp
deriving DecidableEq

/-- Modelled from the spec: the LTL syntax tree (`SyntaxTree` of `syntax.rs`),
a sum of zeroary, unary and binary nodes, exactly the shape `learn.rs`
pattern-matches on. -/
inductive SyntaxTree where
  | zeroary (op : ZeroaryOp)
  | unary (op : UnaryOp) (child : SyntaxTree)
  | binary (op : BinaryOp) (left_child : SyntaxTree) (right_child : SyntaxTree)
deriving DecidableEq

/-- Shorthand for the atomic-proposition formula `Atom(i)`. -/
def atom (i : Nat) : SyntaxTree := SyntaxTree.zeroary (ZeroaryOp.atomicProp i)

/-- Shorthand for the constant-false formula. -/
def falseF : SyntaxTree := SyntaxTree.zeroary ZeroaryOp.falseOp

/-- Tag of a zeroary operator for the structural order. -/
def zIdx : ZeroaryOp → Nat
  | ZeroaryOp.atomicProp _ => 0
  | ZeroaryOp.falseOp => 1

/-- Tag of a unary operator for the structural order. -/
def uIdx : UnaryOp → Nat
  | UnaryOp.notOp => 0
  | UnaryOp.nextOp => 1
  | UnaryOp.globallyOp => 2
  | UnaryOp.finallyOp => 3

/-- Tag of a binary operator for the structural order. -/
def bIdx : BinaryOp → Nat
  | BinaryOp.andOp => 0
  | BinaryOp.orOp => 1
  | BinaryOp.impliesOp => 2
  | BinaryOp.untilOp => 3

/-- Compare zeroary operators: atoms by index, atoms before `False`. -/
def cmpZ : ZeroaryOp → ZeroaryOp → Ordering
  | ZeroaryOp.atomicProp n, ZeroaryOp.atomicProp m => compare n m
  | ZeroaryOp.atomicProp _, ZeroaryOp.falseOp => Ordering.lt
  | ZeroaryOp.falseOp, ZeroaryOp.atomicProp _ => Ordering.gt
  | ZeroaryOp.falseOp, ZeroaryOp.falseOp => Ordering.eq

/-- Modelled from the spec: the total structural order on syntax trees
(section 3: "any deterministic order suffices (e.g., lexicographic on a
tag-then-children traversal)"); this embeds the derived `Ord` the filter
uses for `left_child < right_child`. -/
def cmpT : SyntaxTree → SyntaxTree → Ordering
  | SyntaxTree.zeroary a, SyntaxTree.zeroary b => cmpZ a b
  | SyntaxTree.zeroary _, SyntaxTree.unary _ _ => Ordering.lt
  | SyntaxTree.zeroary _, SyntaxTree.binary _ _ _ => Ordering.lt
  | SyntaxTree.unary _ _, SyntaxTree.zeroary _ => Ordering.gt
  | SyntaxTree.unary o1 c1, SyntaxTree.unary o2 c2 =>
      (compare (uIdx o1) (uIdx o2)).then (cmpT c1 c2)
  | SyntaxTree.unary _ _, SyntaxTree.binary _ _ _ => Ordering.lt
  | SyntaxTree.binary _ _ _, SyntaxTree.zeroary _ => Ordering.gt
  | SyntaxTree.binary _ _ _, SyntaxTree.unary _ _ => Ordering.gt
  | SyntaxTree.binary o1 l1 r1, SyntaxTree.binary o2 l2 r2 =>
      ((compare (bIdx o1) (bIdx o2)).then (cmpT l1 l2)).then (cmpT r1 r2)

/-- The strict order `<` on syntax trees used by the commutativity filters. -/
def tlt (a b : SyntaxTree) : Bool := cmpT a b == Ordering.lt

/-- Root discriminator: is the node `False`? -/
def isFalseLit : SyntaxTree → Bool
  | SyntaxTree.zeroary ZeroaryOp.falseOp => true
  | _ => false

/-- Root discriminator: is the root a `Not`? -/
def isNot : SyntaxTree → Bool
  | SyntaxTree.unary UnaryOp.notOp _ => true
  | _ => false

/-- Root discriminator: is the root a `Next`? -/
def isNext : SyntaxTree → Bool
  | SyntaxTree.unary UnaryOp.nextOp _ => true
  | _ => false

/-- Root discriminator: is the root a `Globally`? -/
def isGlobally : SyntaxTree → Bool
  | SyntaxTree.unary UnaryOp.globallyOp _ => true
  | _ => false

/-- Root discriminator: is the root a `Finally`? -/
def isFinally : SyntaxTree → Bool
  | SyntaxTree.unary UnaryOp.finallyOp _ => true
  | _ => false

/-- Root discriminator: is the root an `And`? -/
def isAnd : SyntaxTree → Bool
  | SyntaxTree.binary BinaryOp.andOp _ _ => true
  | _ => false

/-- Root discriminator: is the root an `Or`? -/
def isOr : SyntaxTree → Bool
  | SyntaxTree.binary BinaryOp.orOp _ _ => true
  | _ => false

/-- Root discriminator: is the root an `Implies`? -/
def isImplies : SyntaxTree → Bool
  | SyntaxTree.binary BinaryOp.impliesOp _ _ => true
  | _ => false

/-- `check_not` of `learn.rs`: reject a `Not` over a `Not` or an `Implies`. -/
def check_not (child : SyntaxTree) : Bool :=
  !(isNot child || isImplies child)

/-- `check_next` of `learn.rs`: reject a `Next` over a `Next`. -/
def check_next (child : SyntaxTree) : Bool :=
  !(isNext child)

/-- `check_globally` of `learn.rs`: reject a `Globally` over a `Globally` or a
`Finally`. -/
def check_globally (child : SyntaxTree) : Bool :=
  !(isGlobally child || isFinally child)

/-- `check_finally` of `learn.rs`: reject a `Finally` over a `Finally`. -/
def check_finally (child : SyntaxTree) : Bool :=
  !(isFinally child)

/-- Guard of the `(Implies, Implies)` arm of `check_and` / `check_or`:
both children are implications sharing a left or a right child. -/
def armImpliesShare : SyntaxTree → SyntaxTree → Bool
  | SyntaxTree.binary BinaryOp.impliesOp l1 r1,
    SyntaxTree.binary BinaryOp.impliesOp l2 r2 =>
      decide (l1 = l2) || decide (r1 = r2)
  | _, _ => false

/-- Guard of the `(Until, Until)` arm of `check_and`: both children are
`Until`s sharing the right child. -/
def armUntilShareRight : SyntaxTree → SyntaxTree → Bool
  | SyntaxTree.binary BinaryOp.untilOp _ r1,
    SyntaxTree.binary BinaryOp.untilOp _ r2 => decide (r1 = r2)
  | _, _ => false

/-- Guard of the `(Until, Until)` arm of `check_or`: both children are
`Until`s sharing the left child. -/
def armUntilShareLeft : SyntaxTree → SyntaxTree → Bool
  | SyntaxTree.binary BinaryOp.untilOp l1 _,
    SyntaxTree.binary BinaryOp.untilOp l2 _ => decide (l1 = l2)
  | _, _ => false

/-- Absorption arm of `check_and`, left `Or`: `(a ∨ b) ∧ c` with `a = c` or
`b = c`. -/
def armOrAbsorbL : SyntaxTree → SyntaxTree → Bool
  | SyntaxTree.binary BinaryOp.orOp l1 r1, rc =>
      decide (l1 = rc) || decide (r1 = rc)
  | _, _ => false

/-- Absorption arm of `check_and`, right `Or`: `c ∧ (a ∨ b)` with `a = c` or
`b = c`. -/
def armOrAbsorbR : SyntaxTree → SyntaxTree → Bool
  | lc, SyntaxTree.binary BinaryOp.orOp l1 r1 =>
      decide (l1 = lc) || decide (r1 = lc)
  | _, _ => false

/-- Distributivity arm of `check_and`: both children are `Or`s sharing any
child. -/
def armOrOrShare : SyntaxTree → SyntaxTree → Bool
  | SyntaxTree.binary BinaryOp.orOp l1 r1,
    SyntaxTree.binary BinaryOp.orOp l2 r2 =>
      decide (l1 = l2) || decide (l1 = r2) || decide (r1 = l2) || decide (r1 = r2)
  | _, _ => false

/-- Absorption arm of `check_or`, left `And`. -/
def armAndAbsorbL : SyntaxTree → SyntaxTree → Bool
  | SyntaxTree.binary BinaryOp.andOp l1 r1, rc =>
      decide (l1 = rc) || decide (r1 = rc)
  | _, _ => false

/-- Absorption arm of `check_or`, right `And`. -/
def armAndAbsorbR : SyntaxTree → SyntaxTree → Bool
  | lc, SyntaxTree.binary BinaryOp.andOp l1 r1 =>
      decide (l1 = lc) || decide (r1 = lc)
  | _, _ => false

/-- Distributivity arm of `check_or`: both children are `And`s sharing any
child. -/
def armAndAndShare : SyntaxTree → SyntaxTree → Bool
  | SyntaxTree.binary BinaryOp.andOp l1 r1,
    SyntaxTree.binary BinaryOp.andOp l2 r2 =>
      decide (l1 = l2) || decide (l1 = r2) || decide (r1 = l2) || decide (r1 = r2)
  | _, _ => false

/-- Terminal arm of `check_and` for a `Next` sibling with child `c`: reject
exactly when `c = Globally g` and `g` equals the other sibling (unrolling of
`G`). -/
def armXG (other c : SyntaxTree) : Bool :=
  match c with
  | SyntaxTree.unary UnaryOp.globallyOp g => !(decide (g = other))
  | _ => true

/-- Terminal arm of `check_or` for a `Next` sibling with child `c`: reject
exactly when `c = Finally f` and `f` equals the other sibling (unrolling of
`F`). -/
def armXF (other c : SyntaxTree) : Bool :=
  match c with
  | SyntaxTree.unary UnaryOp.finallyOp f => !(decide (f = other))
  | _ => true

/-- Terminal arm of `check_or` for an `And(l1, r1)` sibling: the structural
`Until`-unrolling test of `learn.rs` (the `l1` branch is only examined when
`r1` is a `Next` whose child is not an `Until`, mirroring the source's nested
`if let` chain). -/
def armUntilUnroll (other l1 r1 : SyntaxTree) : Bool :=
  match r1 with
  | SyntaxTree.unary UnaryOp.nextOp c =>
    (match c with
     | SyntaxTree.binary BinaryOp.untilOp l2 r2 =>
         !(decide (other = r2) && decide (l1 = l2))
     | _ =>
       match l1 with
       | SyntaxTree.unary UnaryOp.nextOp c2 =>
         (match c2 with
          | SyntaxTree.binary BinaryOp.untilOp l2 r2 =>
              !(decide (other = r2) && decide (r1 = l2))
          | _ => true)
       | _ => true)
  | _ => true

/-- `check_and` of `learn.rs`: the binary filter for `And`, translated arm by
arm in source order (commutativity requirement, then the match arms with
their guards; a guard failure falls through to the later arms exactly as in
the Rust `match`). -/
def check_and (left_child right_child : SyntaxTree) : Bool :=
  tlt left_child right_child &&
  (if isFalseLit right_child || isFalseLit left_child || isAnd left_child
      || (isNot left_child && isNot right_child)
      || (isNext left_child && isNext right_child)
      || (isGlobally left_child && isGlobally right_child) then false
   else if armImpliesShare left_child right_child then false
   else if armUntilShareRight left_child right_child then false
   else if armOrAbsorbL left_child right_child then false
   else if armOrAbsorbR left_child right_child then false
   else if armOrOrShare left_child right_child then false
   else
     match right_child with
     | SyntaxTree.unary UnaryOp.nextOp c => armXG left_child c
     | _ =>
       match left_child with
       | SyntaxTree.unary UnaryOp.nextOp c => armXG right_child c
       | _ => true)

/-- `check_or` of `learn.rs`: the binary filter for `Or`, translated arm by
arm in source order. -/
def check_or (left_child right_child : SyntaxTree) : Bool :=
  tlt left_child right_child &&
  (if isFalseLit right_child || isFalseLit left_child || isOr left_child
      || isNot left_child
      || (isNext left_child && isNext right_child)
      || (isFinally left_child && isFinally right_child) then false
   else if armImpliesShare left_child right_child then false
   else if armUntilShareLeft left_child right_child then false
   else if armAndAbsorbL left_child right_child then false
   else if armAndAbsorbR left_child right_child then false
   else if armAndAndShare left_child right_child then false
   else
     match right_child with
     | SyntaxTree.unary UnaryOp.nextOp c => armXF left_child c
     | _ =>
       match left_child with
       | SyntaxTree.unary UnaryOp.nextOp c => armXF right_child c
       | _ =>
         match right_child with
         | SyntaxTree.binary BinaryOp.andOp l1 r1 =>
             armUntilUnroll left_child l1 r1
         | _ =>
           match left_child with
           | SyntaxTree.binary BinaryOp.andOp l1 r1 =>
               armUntilUnroll right_child l1 r1
           | _ => true)

/-- `check_implies` of `learn.rs`: reject exactly when the left child is a
`Not` (prefer the `Or` form). -/
def check_implies (left_child _right_child : SyntaxTree) : Bool :=
  !(isNot left_child)

/-- `check_until` of `learn.rs`: reject when both children are `Next`, or
when the right child is an `Until` whose left child equals the left child. -/
def check_until (left_child right_child : SyntaxTree) : Bool :=
  if isNext left_child && isNext right_child then false
  else
    match right_child with
    | SyntaxTree.binary BinaryOp.untilOp l1 _ => !(decide (left_child = l1))
    | _ => true

/-- `SkeletonTree` of `learn.rs`: unlabeled tree shapes. -/
inductive SkeletonTree where
  | zeroary
  | unary (child : SkeletonTree)
  | binary (left : SkeletonTree) (right : SkeletonTree)
deriving DecidableEq

/-- Number of operator (internal) nodes of a skeleton; this is the quantity
the recursion of `gen_skeleton_trees` is graded by. -/
def skOps : SkeletonTree → Nat
  | SkeletonTree.zeroary => 0
  | SkeletonTree.unary c => skOps c + 1
  | SkeletonTree.binary l r => skOps l + skOps r + 1

/-- Number of leaves (zeroary positions) of a skeleton. -/
def leafCountSk : SkeletonTree → Nat
  | SkeletonTree.zeroary => 1
  | SkeletonTree.unary c => leafCountSk c
  | SkeletonTree.binary l r => leafCountSk l + leafCountSk r

/-- Number of operator nodes of a formula. -/
def opCount : SyntaxTree → Nat
  | SyntaxTree.zeroary _ => 0
  | SyntaxTree.unary _ c => opCount c + 1
  | SyntaxTree.binary _ l r => opCount l + opCount r + 1

/-- Number of leaves (zeroary nodes) of a formula. -/
def leafCount : SyntaxTree → Nat
  | SyntaxTree.zeroary _ => 1
  | SyntaxTree.unary _ c => leafCount c
  | SyntaxTree.binary _ l r => leafCount l + leafCount r

/-- Table of skeleton lists, newest first: `skelTable n` is
`[gen_skeleton_trees n, …, gen_skeleton_trees 0]`. A structurally recursive
formulation of `gen_skeleton_trees` of `learn.rs`, so that the kernel can
evaluate it; the recurrence proved in `gen_skeleton_trees_succ` below is the
literal shape of the source. -/
def skelTable : Nat → List (List SkeletonTree)
  | 0 => [[SkeletonTree.zeroary]]
  | n + 1 =>
    let prev := skelTable n
    (((prev.getD 0 []).map SkeletonTree.unary) ++
      ((List.range (n + 1)).flatMap (fun l =>
        ((prev.getD (n - l) []).flatMap (fun lc =>
          ((prev.getD l []).map (fun rc => SkeletonTree.binary lc rc))))))) :: prev

/-- `gen_skeleton_trees` of `learn.rs`: all skeletons of a given size, in the
source's enumeration order (unary extensions first, then the binary splits by
increasing left size). -/
def gen_skeleton_trees (n : Nat) : List SkeletonTree := (skelTable n).getD 0 []

/-- `SkeletonTree::gen_formulae::<N>` of `learn.rs`: label a skeleton with
operators and atoms, keeping each candidate that passes its filter predicate;
the enumeration order (atoms then `False`; `Globally`, `Finally`, `Not`,
`Next` per child; `And`, `Or`, `Implies`, `Until` per pair of children, with
the cartesian product iterating the right child innermost) is the source's. -/
def gen_formulae (N : Nat) : SkeletonTree → List SyntaxTree
  | SkeletonTree.zeroary =>
      ((List.range N).map (fun n => SyntaxTree.zeroary (ZeroaryOp.atomicProp n)))
        ++ [SyntaxTree.zeroary ZeroaryOp.falseOp]
  | SkeletonTree.unary c =>
      (gen_formulae N c).flatMap (fun child =>
        (if check_globally child then [SyntaxTree.unary UnaryOp.globallyOp child] else []) ++
        (if check_finally child then [SyntaxTree.unary UnaryOp.finallyOp child] else []) ++
        (if check_not child then [SyntaxTree.unary UnaryOp.notOp child] else []) ++
        (if check_next child then [SyntaxTree.unary UnaryOp.nextOp child] else []))
  | SkeletonTree.binary l r =>
      (gen_formulae N l).flatMap (fun lc =>
        (gen_formulae N r).flatMap (fun rc =>
          (if check_and lc rc then [SyntaxTree.binary BinaryOp.andOp lc rc] else []) ++
          (if check_or lc rc then [SyntaxTree.binary BinaryOp.orOp lc rc] else []) ++
          (if check_implies lc rc then [SyntaxTree.binary BinaryOp.impliesOp lc rc] else []) ++
          (if check_until lc rc then [SyntaxTree.binary BinaryOp.untilOp lc rc] else [])))

/-- Modelled from the spec: `eval(φ, trace, t)` of section 4.1 (the evaluator
lives in the repository's `trace.rs`, which is not among the provided
sources). A trace is a list of states, a state a list of Booleans;
out-of-range reads default to `false` and never occur on the spec's
well-formed inputs. `Next` clamps to the last state (stuttering). -/
def eval : SyntaxTree → List (List Bool) → Nat → Bool
  | SyntaxTree.zeroary (ZeroaryOp.atomicProp i), tr, t =>
      (tr.getD t []).getD i false
  | SyntaxTree.zeroary ZeroaryOp.falseOp, _, _ => false
  | SyntaxTree.unary UnaryOp.notOp φ, tr, t => !(eval φ tr t)
  | SyntaxTree.unary UnaryOp.nextOp φ, tr, t =>
      eval φ tr (min (t + 1) (tr.length - 1))
  | SyntaxTree.unary UnaryOp.globallyOp φ, tr, t =>
      (List.range (tr.length - t)).all (fun d => eval φ tr (t + d))
  | SyntaxTree.unary UnaryOp.finallyOp φ, tr, t =>
      (List.range (tr.length - t)).any (fun d => eval φ tr (t + d))
  | SyntaxTree.binary BinaryOp.andOp φ ψ, tr, t => eval φ tr t && eval ψ tr t
  | SyntaxTree.binary BinaryOp.orOp φ ψ, tr, t => eval φ tr t || eval ψ tr t
  | SyntaxTree.binary BinaryOp.impliesOp φ ψ, tr, t =>
      !(eval φ tr t) || eval ψ tr t
  | SyntaxTree.binary BinaryOp.untilOp φ ψ, tr, t =>
      (List.range (tr.length - t)).any (fun d =>
        eval ψ tr (t + d) && (List.range d).all (fun e => eval φ tr (t + e)))

/-- Modelled from the spec: a sample is two lists of traces, tagged positive
and negative (sections 3 and 6; field names as read back by
`sample_generator/main.rs`). -/
structure Sample where
  positive_traces : List (List (List Bool))
  negative_traces : List (List (List Bool))

/-- Modelled from the spec: `Sample::is_consistent` (section 4.1): every
positive trace satisfies the formula at position 0 and no negative trace
does. -/
def is_consistent (s : Sample) (φ : SyntaxTree) : Bool :=
  s.positive_traces.all (fun tr => eval φ tr 0) &&
  s.negative_traces.all (fun tr => !(eval φ tr 0))

/-- All formulae of one enumeration stage: the inner
`gen_skeleton_trees(size).flat_map(gen_formulae)` of `brute_solve`. -/
def formulaeOfSize (N size : Nat) : List SyntaxTree :=
  (gen_skeleton_trees size).flatMap (fun sk => gen_formulae N sk)

/-- One stage of `brute_solve`: the first formula of the stage consistent
with the sample, if any. -/
def solveAtSize (N : Nat) (s : Sample) (size : Nat) : Option SyntaxTree :=
  (formulaeOfSize N size).find? (fun φ => is_consistent s φ)

/-- The first `n` stages of `brute_solve`, in order: the first hit among
sizes `0, …, n-1`. -/
def solveUpto (N : Nat) (s : Sample) : Nat → Option SyntaxTree
  | 0 => none
  | n + 1 =>
    match solveUpto N s n with
    | some φ => some φ
    | none => solveAtSize N s n

/-- `brute_solve` of `learn.rs`: the unbounded `(0..).find_map` is embedded
relationally — the driver returns `φ` exactly when some finite prefix of the
size iteration already yields `φ` as the first hit (the Rust function
diverges otherwise, returning nothing). -/
def BruteSolveReturns (N : Nat) (s : Sample) (φ : SyntaxTree) : Prop :=
  ∃ n, solveUpto N s n = some φ

/-- `par_brute_solve` of `learn.rs`: sizes are still scanned in order, but
within a size rayon's `find_any` may return any consistent candidate, so the
result is specified relationally: all earlier stages are exhausted with no
hit, and `φ` is a consistent formula of the current stage. -/
def ParBruteSolveReturns (N : Nat) (s : Sample) (φ : SyntaxTree) : Prop :=
  ∃ k, (∀ j, j < k → solveAtSize N s j = none) ∧
    φ ∈ formulaeOfSize N k ∧ is_consistent s φ = true

/-- Shape agreement between a skeleton and a formula: atoms with index below
`N` or `False` at zeroary positions, a unary operator at unary positions, a
binary operator at binary positions. -/
def matchesShape (N : Nat) : SkeletonTree → SyntaxTree → Bool
  | SkeletonTree.zeroary, SyntaxTree.zeroary op =>
    (match op with
     | ZeroaryOp.atomicProp i => decide (i < N)
     | ZeroaryOp.falseOp => true)
  | SkeletonTree.unary c, SyntaxTree.unary _ child => matchesShape N c child
  | SkeletonTree.binary l r, SyntaxTree.binary _ lc rc =>
      matchesShape N l lc && matchesShape N r rc
  | _, _ => false

/-- No `Next` node sits directly above another `Next` node anywhere in the
formula. -/
def noNextNext : SyntaxTree → Bool
  | SyntaxTree.zeroary _ => true
  | SyntaxTree.unary UnaryOp.nextOp c => !(isNext c) && noNextNext c
  | SyntaxTree.unary _ c => noNextNext c
  | SyntaxTree.binary _ l r => noNextNext l && noNextNext r

/-- Sample for the positive witnesses: one positive trace where `p0` holds in
the single state, one negative trace where it does not (scenario 1 of the
spec). -/
def sampleA : Sample :=
  { positive_traces := [[[true, false]]]
    negative_traces := [[[false, false]]] }

/-- Sample refuting the leaf-count reading of minimality: the first hit is
`And(p0, p1)` (two leaves) while the one-leaf formula `Next(Not p0)`, produced
at a later stage, is also consistent. -/
def sampleCex1 : Sample :=
  { positive_traces := [[[true, true], [false, false]]]
    negative_traces := [[[true, false], [true, false]], [[false, true], [true, false]]] }

/-- Sample on which the serial driver returns the one-leaf formula `Not p0`
while the two-leaf formula `Implies(p0, p1)` of the same stage is also
consistent (so the parallel driver may return it). -/
def sampleCex3 : Sample :=
  { positive_traces := [[[false, false], [true, true]]]
    negative_traces := [[[true, false], [true, false]]] }

/-! ### Helper lemmas -/

lemma mem_if_singleton {b : Bool} {x a : SyntaxTree} :
    a ∈ (if b = true then [x] else []) ↔ b = true ∧ a = x := by
  cases b <;> simp

lemma getD_skelTable : ∀ n i, i ≤ n →
    (skelTable n).getD i [] = gen_skeleton_trees (n - i) := by
  intro n
  induction n with
  | zero =>
    intro i hi
    have h0 : i = 0 := Nat.le_zero.mp hi
    subst h0; rfl
  | succ n ih =>
    intro i hi
    cases i with
    | zero => simp [gen_skeleton_trees]
    | succ j =>
      have hj : j ≤ n := Nat.le_of_succ_le_succ hi
      show ((_ : List SkeletonTree) :: skelTable n).getD (j + 1) [] = _
      simpa [Nat.succ_sub_succ] using ih j hj

lemma gen_skeleton_trees_succ (n : Nat) :
    gen_skeleton_trees (n + 1) =
      ((gen_skeleton_trees n).map SkeletonTree.unary) ++
      ((List.range (n + 1)).flatMap (fun l =>
        (gen_skeleton_trees l).flatMap (fun lc =>
          (gen_skeleton_trees (n - l)).map (fun rc => SkeletonTree.binary lc rc)))) := by
  have h0 : (skelTable n).getD 0 [] = gen_skeleton_trees n := by
    simpa using getD_skelTable n 0 (Nat.zero_le n)
  show ((_ : List SkeletonTree) :: skelTable n).getD 0 [] = _
  simp only [List.getD_cons_zero]
  rw [h0]
  apply congrArg (HAppend.hAppend _)
  apply List.flatMap_congr
  intro l hl
  have hln : l ≤ n := Nat.lt_succ_iff.mp (List.mem_range.mp hl)
  rw [getD_skelTable n (n - l) (Nat.sub_le n l), getD_skelTable n l hln,
    Nat.sub_sub_self hln]

lemma skOps_of_mem : ∀ n s, s ∈ gen_skeleton_trees n → skOps s = n := by
  intro n
  induction n using Nat.strong_induction_on with
  | _ n ih =>
    cases n with
    | zero =>
      intro s hs
      have : s = SkeletonTree.zeroary := by
        simpa [gen_skeleton_trees, skelTable] using hs
      subst this; rfl
    | succ n =>
      intro s hs
      rw [gen_skeleton_trees_succ] at hs
      rcases List.mem_append.mp hs with h | h
      · rcases List.mem_map.mp h with ⟨c, hc, rfl⟩
        have hc' := ih n (Nat.lt_succ_self n) c hc
        simp [skOps, hc']
      · rcases List.mem_flatMap.mp h with ⟨l, hl, h2⟩
        rcases List.mem_flatMap.mp h2 with ⟨lc, hlc, h3⟩
        rcases List.mem_map.mp h3 with ⟨rc, hrc, rfl⟩
        have hln : l ≤ n := Nat.lt_succ_iff.mp (List.mem_range.mp hl)
        have h4 := ih l (Nat.lt_succ_of_le hln) lc hlc
        have h5 := ih (n - l) (Nat.lt_succ_of_le (Nat.sub_le n l)) rc hrc
        simp only [skOps, h4, h5]
        omega

lemma mem_of_skOps : ∀ s : SkeletonTree, s ∈ gen_skeleton_trees (skOps s) := by
  intro s
  induction s with
  | zeroary => simp [gen_skeleton_trees, skelTable, skOps]
  | unary c ihc =>
    show _ ∈ gen_skeleton_trees (skOps c + 1)
    rw [gen_skeleton_trees_succ]
    exact List.mem_append_left _ (List.mem_map.mpr ⟨c, ihc, rfl⟩)
  | binary l r ihl ihr =>
    show _ ∈ gen_skeleton_trees (skOps l + skOps r + 1)
    rw [gen_skeleton_trees_succ]
    apply List.mem_append_right
    apply List.mem_flatMap.mpr
    refine ⟨skOps l, List.mem_range.mpr (by omega), ?_⟩
    apply List.mem_flatMap.mpr
    refine ⟨l, ihl, ?_⟩
    apply List.mem_map.mpr
    refine ⟨r, ?_, rfl⟩
    have he : skOps l + skOps r - skOps l = skOps r := by omega
    rw [he]; exact ihr

lemma shape_aux : ∀ (N : Nat) (sk : SkeletonTree) (φ : SyntaxTree),
    φ ∈ gen_formulae N sk → matchesShape N sk φ = true ∧ opCount φ = skOps sk := by
  intro N sk
  induction sk with
  | zeroary =>
    intro φ h
    simp only [gen_formulae, List.mem_append, List.mem_map, List.mem_range,
      List.mem_singleton] at h
    rcases h with ⟨i, hi, rfl⟩ | rfl
    · exact ⟨by simp [matchesShape, hi], rfl⟩
    · exact ⟨rfl, rfl⟩
  | unary c ih =>
    intro φ h
    simp only [gen_formulae, List.mem_flatMap] at h
    obtain ⟨child, hc, hm⟩ := h
    have hic := ih child hc
    simp only [List.mem_append, mem_if_singleton] at hm
    rcases hm with ((⟨_, rfl⟩ | ⟨_, rfl⟩) | ⟨_, rfl⟩) | ⟨_, rfl⟩ <;>
      exact ⟨by simpa [matchesShape] using hic.1, by simp [opCount, skOps, hic.2]⟩
  | binary l r ihl ihr =>
    intro φ h
    simp only [gen_formulae, List.mem_flatMap] at h
    obtain ⟨lc, hlc, h2⟩ := h
    obtain ⟨rc, hrc, hm⟩ := h2
    have hil := ihl lc hlc
    have hir := ihr rc hrc
    simp only [List.mem_append, mem_if_singleton] at hm
    rcases hm with ((⟨_, rfl⟩ | ⟨_, rfl⟩) | ⟨_, rfl⟩) | ⟨_, rfl⟩ <;>
      exact ⟨by simp [matchesShape, hil.1, hir.1],
        by simp only [opCount, skOps, hil.2, hir.2]⟩

lemma noNextNext_of_mem : ∀ (N : Nat) (sk : SkeletonTree) (φ : SyntaxTree),
    φ ∈ gen_formulae N sk → noNextNext φ = true := by
  intro N sk
  induction sk with
  | zeroary =>
    intro φ h
    simp only [gen_formulae, List.mem_append, List.mem_map, List.mem_range,
      List.mem_singleton] at h
    rcases h with ⟨i, _, rfl⟩ | rfl <;> rfl
  | unary c ih =>
    intro φ h
    simp only [gen_formulae, List.mem_flatMap] at h
    obtain ⟨child, hc, hm⟩ := h
    have hic := ih child hc
    simp only [List.mem_append, mem_if_singleton] at hm
    rcases hm with ((⟨_, rfl⟩ | ⟨_, rfl⟩) | ⟨_, rfl⟩) | ⟨hb, rfl⟩
    · simpa [noNextNext] using hic
    · simpa [noNextNext] using hic
    · simpa [noNextNext] using hic
    · have hx : isNext child = false := by
        have := hb
        simp only [check_next, Bool.not_eq_true'] at this
        exact this
      simp [noNextNext, hx, hic]
  | binary l r ihl ihr =>
    intro φ h
    simp only [gen_formulae, List.mem_flatMap] at h
    obtain ⟨lc, hlc, h2⟩ := h
    obtain ⟨rc, hrc, hm⟩ := h2
    have hil := ihl lc hlc
    have hir := ihr rc hrc
    simp only [List.mem_append, mem_if_singleton] at hm
    rcases hm with ((⟨_, rfl⟩ | ⟨_, rfl⟩) | ⟨_, rfl⟩) | ⟨_, rfl⟩ <;>
      simp [noNextNext, hil, hir]

lemma solveUpto_none : ∀ (N : Nat) (s : Sample) (n : Nat),
    solveUpto N s n = none → ∀ j, j < n → solveAtSize N s j = none := by
  intro N s n
  induction n with
  | zero => intro _ j hj; exact absurd hj (Nat.not_lt_zero j)
  | succ n ih =>
    intro h j hj
    cases hprev : solveUpto N s n with
    | some ψ => simp [solveUpto, hprev] at h
    | none =>
      have hsz : solveAtSize N s n = none := by
        simpa [solveUpto, hprev] using h
      rcases Nat.lt_succ_iff_lt_or_eq.mp hj with hj' | rfl
      · exact ih hprev j hj'
      · exact hsz

lemma solveUpto_decomp : ∀ (N : Nat) (s : Sample) (n : Nat) (φ : SyntaxTree),
    solveUpto N s n = some φ →
    ∃ k, k < n ∧ solveAtSize N s k = some φ ∧
      ∀ j, j < k → solveAtSize N s j = none := by
  intro N s n
  induction n with
  | zero => intro φ h; simp [solveUpto] at h
  | succ n ih =>
    intro φ h
    cases hprev : solveUpto N s n with
    | some ψ =>
      have hψ : ψ = φ := by simpa [solveUpto, hprev] using h
      obtain ⟨k, hk, h1, h2⟩ := ih ψ hprev
      exact ⟨k, Nat.lt_succ_of_lt hk, hψ ▸ h1, h2⟩
    | none =>
      have hsz : solveAtSize N s n = some φ := by
        simpa [solveUpto, hprev] using h
      exact ⟨n, Nat.lt_succ_self n, hsz, solveUpto_none N s n hprev⟩

lemma opCount_of_mem_stage : ∀ (N k : Nat) (φ : SyntaxTree),
    φ ∈ formulaeOfSize N k → opCount φ = k := by
  intro N k φ h
  obtain ⟨sk, hsk, hφ⟩ := List.mem_flatMap.mp h
  rw [(shape_aux N sk φ hφ).2, skOps_of_mem k sk hsk]

/-! ### Claim theorems -/

/-- C1 (amended): minimality of the search driver holds with respect to the
enumeration stage, which equals the operator-node count of the result: if
`brute_solve` or `par_brute_solve` returns `φ*`, then `φ*` was generated at
stage `k = opCount φ*`, and no formula generated at any stage `j < k` is
consistent with the sample (every earlier stage is exhausted with no hit
before a stage-`k` result is emitted). The leaf-count reading of "size" is
refuted by `brute_solve_minimal_leaf_cex`. -/
theorem brute_solve_minimal (N : Nat) (s : Sample) (φ : SyntaxTree)
    (h : BruteSolveReturns N s φ ∨ ParBruteSolveReturns N s φ) :
    ∃ k, φ ∈ formulaeOfSize N k ∧ is_consistent s φ = true ∧ opCount φ = k ∧
      ∀ j, j < k → ∀ ψ ∈ formulaeOfSize N j, is_consistent s ψ = false := by
  have hfalse : ∀ j : Nat, solveAtSize N s j = none →
      ∀ ψ ∈ formulaeOfSize N j, is_consistent s ψ = false := by
    intro j hj ψ hψ
    have hno := List.find?_eq_none.mp hj ψ hψ
    cases hb : is_consistent s ψ
    · rfl
    · exact absurd hb hno
  rcases h with ⟨n, hn⟩ | ⟨k, hnone, hmem, hc⟩
  · obtain ⟨k, _, hfind, hnone⟩ := solveUpto_decomp N s n φ hn
    have hmem := List.mem_of_find?_eq_some hfind
    exact ⟨k, hmem, List.find?_some hfind, opCount_of_mem_stage N k φ hmem,
      fun j hj => hfalse j (hnone j hj)⟩
  · exact ⟨k, hmem, hc, opCount_of_mem_stage N k φ hmem,
      fun j hj => hfalse j (hnone j hj)⟩

/-- C1, witness: on the spec's scenario-1 sample, `brute_solve` returns
`Atom 0` and the minimality conclusion holds at stage 0. -/
theorem brute_solve_minimal_witness :
    ∃ k, (atom 0) ∈ formulaeOfSize 2 k ∧ is_consistent sampleA (atom 0) = true ∧
      opCount (atom 0) = k ∧
      ∀ j, j < k → ∀ ψ ∈ formulaeOfSize 2 j, is_consistent sampleA ψ = false :=
  brute_solve_minimal 2 sampleA (atom 0) (Or.inl ⟨1, by decide⟩)

/-- C1, counterexample to the claim as stated (size read as leaf count, the
spec's definition of size): on `sampleCex1` the driver returns
`And(p0, p1)`, a formula with two leaves, while `Next(Not p0)` — a generated
formula with one leaf, produced at a later stage — is also consistent with
the sample. -/
theorem brute_solve_minimal_leaf_cex :
    BruteSolveReturns 2 sampleCex1 (SyntaxTree.binary BinaryOp.andOp (atom 0) (atom 1)) ∧
    (SyntaxTree.unary UnaryOp.nextOp (SyntaxTree.unary UnaryOp.notOp (atom 0))) ∈
      formulaeOfSize 2 2 ∧
    is_consistent sampleCex1
      (SyntaxTree.unary UnaryOp.nextOp (SyntaxTree.unary UnaryOp.notOp (atom 0))) = true ∧
    leafCount (SyntaxTree.unary UnaryOp.nextOp (SyntaxTree.unary UnaryOp.notOp (atom 0))) <
      leafCount (SyntaxTree.binary BinaryOp.andOp (atom 0) (atom 1)) :=
  ⟨⟨2, by decide⟩, by decide, by decide, by decide⟩

/-- C2: whichever driver returns a formula, that formula is consistent with
the input sample — every positive trace satisfies it at position 0 and no
negative trace does. -/
theorem solve_result_consistent (N : Nat) (s : Sample) (φ : SyntaxTree)
    (h : BruteSolveReturns N s φ ∨ ParBruteSolveReturns N s φ) :
    is_consistent s φ = true := by
  rcases h with ⟨n, hn⟩ | ⟨k, _, _, hc⟩
  · obtain ⟨k, _, hfind, _⟩ := solveUpto_decomp N s n φ hn
    exact List.find?_some hfind
  · exact hc

/-- C2, witness: the scenario-1 result `Atom 0` is consistent with its
sample. -/
theorem solve_result_consistent_witness : is_consistent sampleA (atom 0) = true :=
  solve_result_consistent 2 sampleA (atom 0) (Or.inl ⟨1, by decide⟩)

/-- C3 (amended): on the same sample the serial and the parallel driver
return formulae of the same enumeration stage, hence with the same number of
operator nodes; their leaf counts can differ
(`serial_parallel_leaf_cex`). -/
theorem serial_parallel_same_opCount (N : Nat) (s : Sample) (φ ψ : SyntaxTree)
    (h1 : BruteSolveReturns N s φ) (h2 : ParBruteSolveReturns N s ψ) :
    opCount φ = opCount ψ := by
  obtain ⟨n, hn⟩ := h1
  obtain ⟨k1, _, hfind, hnone1⟩ := solveUpto_decomp N s n φ hn
  obtain ⟨k2, hnone2, hmem2, hc2⟩ := h2
  have hk : k1 = k2 := by
    rcases Nat.lt_trichotomy k1 k2 with h | h | h
    · have hcontra := hnone2 k1 h
      rw [hfind] at hcontra
      cases hcontra
    · exact h
    · exfalso
      have hn1 := hnone1 k2 h
      exact List.find?_eq_none.mp hn1 ψ hmem2 hc2
  rw [opCount_of_mem_stage N k1 φ (List.mem_of_find?_eq_some hfind),
    opCount_of_mem_stage N k2 ψ hmem2, hk]

/-- C3, witness: on `sampleCex3` the serial result `Not p0` and a possible
parallel result `Implies(p0, p1)` have equal operator counts. -/
theorem serial_parallel_same_opCount_witness :
    opCount (SyntaxTree.unary UnaryOp.notOp (atom 0)) =
      opCount (SyntaxTree.binary BinaryOp.impliesOp (atom 0) (atom 1)) :=
  serial_parallel_same_opCount 2 sampleCex3 _ _ ⟨2, by decide⟩
    ⟨1, by decide, by decide, by decide⟩

/-- C3, counterexample to the claim as stated (sizes read as leaf counts):
on `sampleCex3` the serial driver returns the one-leaf `Not p0` while the
two-leaf `Implies(p0, p1)` of the same stage is also consistent, so the
parallel driver may return it; the two results do not have equal leaf
counts. -/
theorem serial_parallel_leaf_cex :
    BruteSolveReturns 2 sampleCex3 (SyntaxTree.unary UnaryOp.notOp (atom 0)) ∧
    ParBruteSolveReturns 2 sampleCex3
      (SyntaxTree.binary BinaryOp.impliesOp (atom 0) (atom 1)) ∧
    leafCount (SyntaxTree.unary UnaryOp.notOp (atom 0)) ≠
      leafCount (SyntaxTree.binary BinaryOp.impliesOp (atom 0) (atom 1)) :=
  ⟨⟨2, by decide⟩, ⟨1, by decide, by decide, by decide⟩, by decide⟩

/-- C4 (amended): `gen_skeleton_trees n` produces exactly the unary-or-binary
trees with exactly `n` internal (operator) nodes — not `n` leaves — with
base case `n = 0` yielding just the Leaf. -/
theorem gen_skeleton_trees_char : ∀ (n : Nat) (s : SkeletonTree),
    s ∈ gen_skeleton_trees n ↔ skOps s = n := by
  intro n s
  constructor
  · exact skOps_of_mem n s
  · intro h
    rw [← h]
    exact mem_of_skOps s

/-- C4, counterexample to the claim as stated: `gen_skeleton_trees 1` is not
the single Leaf; it contains a unary tree with one leaf and a binary tree
with two leaves, so the parameter is neither the leaf count nor does `n = 1`
yield `[Leaf]`. -/
theorem gen_skeleton_trees_leaf_cex :
    gen_skeleton_trees 1 = [SkeletonTree.unary SkeletonTree.zeroary,
      SkeletonTree.binary SkeletonTree.zeroary SkeletonTree.zeroary] ∧
    leafCountSk (SkeletonTree.unary SkeletonTree.zeroary) = 1 ∧
    leafCountSk (SkeletonTree.binary SkeletonTree.zeroary SkeletonTree.zeroary) = 2 := by
  decide

/-- C5 (amended): lifting a Leaf skeleton over `N` atoms yields exactly the
`N + 1` formulae `Atom 0, …, Atom (N-1)` and the constant `False`, in that
order — `False` is also a generated leaf formula. -/
theorem gen_formulae_zeroary_char : ∀ (N : Nat) (φ : SyntaxTree),
    φ ∈ gen_formulae N SkeletonTree.zeroary ↔
      ((∃ i, i < N ∧ φ = atom i) ∨ φ = falseF) := by
  intro N φ
  simp only [gen_formulae, List.mem_append, List.mem_map, List.mem_range,
    List.mem_singleton, atom, falseF]
  constructor
  · rintro (⟨i, hi, rfl⟩ | rfl)
    · exact Or.inl ⟨i, hi, rfl⟩
    · exact Or.inr rfl
  · rintro (⟨i, hi, rfl⟩ | rfl)
    · exact Or.inl ⟨i, hi, rfl⟩
    · exact Or.inr rfl

/-- C5, counterexample to the claim as stated: over `N = 2` atoms the Leaf
skeleton generates three formulae, not two — the constant `False` is
generated besides `Atom 0` and `Atom 1`. -/
theorem gen_formulae_zeroary_cex :
    gen_formulae 2 SkeletonTree.zeroary = [atom 0, atom 1, falseF] ∧
    (gen_formulae 2 SkeletonTree.zeroary).length ≠ 2 := by
  decide

/-- C6 (amended): the unary filter rejects a candidate `Next φ` exactly when
the root of `φ` is itself `Next`; consequently no formula emitted by
`gen_formulae` contains a `Next` node whose direct child is another `Next`
(children rooted in `Not`, `Globally` or `Finally` are accepted, see
`check_next_cex`). -/
theorem check_next_char :
    (∀ φ : SyntaxTree, check_next φ = false ↔ isNext φ = true) ∧
    (∀ (N : Nat) (sk : SkeletonTree) (φ : SyntaxTree),
      φ ∈ gen_formulae N sk → noNextNext φ = true) := by
  constructor
  · intro φ
    simp [check_next]
  · exact noNextNext_of_mem

/-- C6, witness: the generated formula `Next (Atom 0)` contains no
`Next`-over-`Next` chain. -/
theorem check_next_char_witness :
    noNextNext (SyntaxTree.unary UnaryOp.nextOp (atom 0)) = true :=
  check_next_char.2 1 (SkeletonTree.unary SkeletonTree.zeroary)
    (SyntaxTree.unary UnaryOp.nextOp (atom 0)) (by decide)

/-- C6, counterexample to the claim as stated: `check_next` accepts children
rooted in `Not`, `Globally` and `Finally` (the claim says it rejects them),
and `gen_formulae` does emit `Next (Not (Atom 0))`, a `Next` node directly
over a `Not`. -/
theorem check_next_cex :
    check_next (SyntaxTree.unary UnaryOp.notOp (atom 0)) = true ∧
    check_next (SyntaxTree.unary UnaryOp.globallyOp (atom 0)) = true ∧
    check_next (SyntaxTree.unary UnaryOp.finallyOp (atom 0)) = true ∧
    (SyntaxTree.unary UnaryOp.nextOp (SyntaxTree.unary UnaryOp.notOp (atom 0))) ∈
      gen_formulae 1 (SkeletonTree.unary (SkeletonTree.unary SkeletonTree.zeroary)) := by
  decide

/-- C7 (amended): the unary filter rejects a candidate `Globally φ` exactly
when the root of `φ` is `Globally` or `Finally` — a `Finally` child is
rejected, not accepted. -/
theorem check_globally_char : ∀ φ : SyntaxTree,
    check_globally φ = false ↔ (isGlobally φ || isFinally φ) = true := by
  intro φ
  cases hg : isGlobally φ <;> cases hf : isFinally φ <;> simp [check_globally, hg, hf]

/-- C7, counterexample to the claim as stated: a child rooted in `Finally`
is rejected by `check_globally`, although the claim says every root other
than `Globally` is accepted. -/
theorem check_globally_cex :
    check_globally (SyntaxTree.unary UnaryOp.finallyOp (atom 0)) = false ∧
    check_globally (SyntaxTree.unary UnaryOp.notOp (atom 0)) = true := by
  decide

/-- C8 (amended): the And filter has no excluded-middle rule; the only
negation-related rejection is the De-Morgan rule firing when both children
are negations. A conjunction of a formula with its own negation, such as
`And(Atom 0, Not (Atom 0))`, passes `check_and` and is emitted by
`gen_formulae`. -/
theorem check_and_negation_rules :
    (∀ a b : SyntaxTree, check_and (SyntaxTree.unary UnaryOp.notOp a)
      (SyntaxTree.unary UnaryOp.notOp b) = false) ∧
    check_and (atom 0) (SyntaxTree.unary UnaryOp.notOp (atom 0)) = true := by
  constructor
  · intro a b
    simp [check_and, isFalseLit, isAnd, isNot]
  · decide

/-- C8, counterexample to the claim as stated: the candidate
`And(Atom 0, Not (Atom 0))` — a conjunction with one child the negation of
the other — passes `check_and` and is emitted by `gen_formulae`. -/
theorem check_and_excluded_middle_cex :
    check_and (atom 0) (SyntaxTree.unary UnaryOp.notOp (atom 0)) = true ∧
    (SyntaxTree.binary BinaryOp.andOp (atom 0) (SyntaxTree.unary UnaryOp.notOp (atom 0))) ∈
      gen_formulae 1 (SkeletonTree.binary SkeletonTree.zeroary
        (SkeletonTree.unary SkeletonTree.zeroary)) := by
  decide

/-- C10: every formula returned by `gen_formulae` on a skeleton has exactly
that skeleton's tree shape — a zeroary operator (an atom with index `< N` or
`False`) at each Leaf position, a unary operator at each Unary position, a
binary operator at each Binary position — and hence exactly as many operator
nodes as the skeleton. -/
theorem gen_formulae_shape (N : Nat) (sk : SkeletonTree) (φ : SyntaxTree)
    (h : φ ∈ gen_formulae N sk) :
    matchesShape N sk φ = true ∧ opCount φ = skOps sk :=
  shape_aux N sk φ h

/-- C10, witness: `Atom 0` generated from the Leaf skeleton matches its
shape. -/
theorem gen_formulae_shape_witness :
    matchesShape 2 SkeletonTree.zeroary (atom 0) = true ∧
      opCount (atom 0) = skOps SkeletonTree.zeroary :=
  gen_formulae_shape 2 SkeletonTree.zeroary (atom 0) (by decide)

end LearnLtl
